import Mathlib

set_option maxHeartbeats 1000000
set_option maxRecDepth 4096

/-!
Verification development for the godot-sidekick-lsp core: a shallow embedding
of the type-string lattice (`typedb.rs`), the builtin class catalog queries,
the scope/symbol table and type-inference engine (`symbol_table.rs`), and the
source store (`filedb.rs`), together with theorems settling the specification
claims about them.

Conventions of the embedding:
* Rust `HashMap`s keyed by strings or node ids are modelled as association
  lists with lookup by key (`find?`); the catalogs in question have distinct
  keys, so the model is observationally identical.
* Rust functions whose recursion is not structurally bounded in the source
  (class parent chains, the scope-parent walk, inference re-entering via
  lazily parsed constants) take an explicit fuel argument; running out of
  fuel is the distinguished outcome `RErr.fuelOut`, and a computation that
  Rust would abort with a panic (`unwrap`, `unreachable!`) is `RErr.panicked`.
  Returning `Except.ok` therefore certifies that the Rust original terminates
  without panicking and produces the same value.
-/

namespace GodotLsp

/-- Abnormal outcomes of the embedded Rust code: `panicked` models a Rust
panic (`unwrap` / `unreachable!`), `fuelOut` models running out of fuel,
i.e. a recursion the embedding could not unfold within its fuel bound. -/
inductive RErr where
  | panicked
  | fuelOut
  deriving DecidableEq

/-- `VariantType` from `typedb.rs`: the fixed enumeration of builtin
primitive/value kinds. -/
inductive VariantType where
  | Nil
  | Bool
  | Int
  | Float
  | String
  | Vector2
  | Vector2i
  | Rect2
  | Rect2i
  | Vector3
  | Vector3i
  | Transform2d
  | Vector4
  | Vector4i
  | Plane
  | Quaternion
  | Aabb
  | Basis
  | Transform3d
  | Projection
  | Color
  | String_name
  | Node_path
  | Rid
  | Object
  | Callable
  | Signal
  | Dictionary
  | Array
  | PackedByteArray
  | PackedInt32Array
  | PackedInt64Array
  | PackedFloat32Array
  | PackedFloat64Array
  | PackedStringArray
  | PackedVector2Array
  | PackedVector3Array
  | PackedColorArray
  | PackedVector4Array
  deriving DecidableEq

/-- The name table of the strum-derived `EnumString`/`Display` impls on
`VariantType`: each variant is (de)serialized from/to exactly one string —
the `#[strum(serialize = ...)]` override for `Nil`/`Bool`/`Int`/`Float` and
the verbatim variant name otherwise, in declaration order. -/
def variantNames : List (String × VariantType) :=
  [("void", .Nil), ("bool", .Bool), ("int", .Int), ("float", .Float),
   ("String", .String), ("Vector2", .Vector2), ("Vector2i", .Vector2i),
   ("Rect2", .Rect2), ("Rect2i", .Rect2i), ("Vector3", .Vector3),
   ("Vector3i", .Vector3i), ("Transform2d", .Transform2d),
   ("Vector4", .Vector4), ("Vector4i", .Vector4i), ("Plane", .Plane),
   ("Quaternion", .Quaternion), ("Aabb", .Aabb), ("Basis", .Basis),
   ("Transform3d", .Transform3d), ("Projection", .Projection),
   ("Color", .Color), ("String_name", .String_name),
   ("Node_path", .Node_path), ("Rid", .Rid), ("Object", .Object),
   ("Callable", .Callable), ("Signal", .Signal),
   ("Dictionary", .Dictionary), ("Array", .Array),
   ("PackedByteArray", .PackedByteArray),
   ("PackedInt32Array", .PackedInt32Array),
   ("PackedInt64Array", .PackedInt64Array),
   ("PackedFloat32Array", .PackedFloat32Array),
   ("PackedFloat64Array", .PackedFloat64Array),
   ("PackedStringArray", .PackedStringArray),
   ("PackedVector2Array", .PackedVector2Array),
   ("PackedVector3Array", .PackedVector3Array),
   ("PackedColorArray", .PackedColorArray),
   ("PackedVector4Array", .PackedVector4Array)]

/-- The strum `Display` impl on `VariantType` (`to_string`). -/
def vtToString : VariantType → String
  | .Nil => "void"
  | .Bool => "bool"
  | .Int => "int"
  | .Float => "float"
  | .String => "String"
  | .Vector2 => "Vector2"
  | .Vector2i => "Vector2i"
  | .Rect2 => "Rect2"
  | .Rect2i => "Rect2i"
  | .Vector3 => "Vector3"
  | .Vector3i => "Vector3i"
  | .Transform2d => "Transform2d"
  | .Vector4 => "Vector4"
  | .Vector4i => "Vector4i"
  | .Plane => "Plane"
  | .Quaternion => "Quaternion"
  | .Aabb => "Aabb"
  | .Basis => "Basis"
  | .Transform3d => "Transform3d"
  | .Projection => "Projection"
  | .Color => "Color"
  | .String_name => "String_name"
  | .Node_path => "Node_path"
  | .Rid => "Rid"
  | .Object => "Object"
  | .Callable => "Callable"
  | .Signal => "Signal"
  | .Dictionary => "Dictionary"
  | .Array => "Array"
  | .PackedByteArray => "PackedByteArray"
  | .PackedInt32Array => "PackedInt32Array"
  | .PackedInt64Array => "PackedInt64Array"
  | .PackedFloat32Array => "PackedFloat32Array"
  | .PackedFloat64Array => "PackedFloat64Array"
  | .PackedStringArray => "PackedStringArray"
  | .PackedVector2Array => "PackedVector2Array"
  | .PackedVector3Array => "PackedVector3Array"
  | .PackedColorArray => "PackedColorArray"
  | .PackedVector4Array => "PackedVector4Array"

/-- The strum `EnumString` impl on `VariantType` (`from_str`); the single
error variant `strum::ParseError::VariantNotFound` is modelled as `none`. -/
def vtFromStr (s : String) : Option VariantType :=
  (variantNames.find? (fun p => p.1 == s)).map (·.2)

/-- Models `s.strip_suffix("[]")` from `impl FromStr for SymbolType`. -/
def stripArrayMarker (s : String) : Option String :=
  match s.data.reverse with
  | ']' :: '[' :: rest => some ⟨rest.reverse⟩
  | _ => none

/-- `SymbolType` from `typedb.rs` (the constructor `OjbectArray` keeps the
source's spelling). -/
inductive SymbolType where
  | Variant (v : VariantType)
  | Array (v : VariantType)
  | Object (name : String)
  | OjbectArray (elName : String)
  deriving DecidableEq

/-- `impl ToString for SymbolType`. -/
def SymbolType.toString : SymbolType → String
  | .Variant v => vtToString v
  | .Array v => vtToString v ++ "[]"
  | .Object name => name
  | .OjbectArray elName => elName ++ "[]"

/-- `strum::ParseError`, the declared error type of
`impl FromStr for SymbolType`. -/
inductive StrumParseError where
  | VariantNotFound
  deriving DecidableEq

/-- `impl FromStr for SymbolType`, with the Rust `Result` kept: every arm of
the source returns `Ok`. -/
def SymbolType.fromStrR (s : String) : Except StrumParseError SymbolType :=
  match stripArrayMarker s with
  | some arrayElementType =>
    match vtFromStr arrayElementType with
    | some v => .ok (.Array v)
    | none => .ok (.OjbectArray arrayElementType)
  | none =>
    match vtFromStr s with
    | some v => .ok (.Variant v)
    | none => .ok (.Object s)

/-- The total classification function underlying `SymbolType::from_str`
(which never returns `Err`). -/
def SymbolType.fromStr (s : String) : SymbolType :=
  match stripArrayMarker s with
  | some arrayElementType =>
    match vtFromStr arrayElementType with
    | some v => .Array v
    | none => .OjbectArray arrayElementType
  | none =>
    match vtFromStr s with
    | some v => .Variant v
    | none => .Object s

/-- Models `SymbolType::from_str(s).ok()` as it is used throughout
`symbol_table.rs`. -/
def SymbolType.fromStrOk (s : String) : Option SymbolType :=
  (SymbolType.fromStrR s).toOption

theorem variantNames_toString :
    ∀ p ∈ variantNames, vtToString p.2 = p.1 := by decide

theorem vt_fromStr_toString {s : String} {v : VariantType}
    (h : vtFromStr s = some v) : vtToString v = s := by
  unfold vtFromStr at h
  cases hf : variantNames.find? (fun p => p.1 == s) with
  | none => rw [hf] at h; simp at h
  | some p =>
    rw [hf] at h
    simp only [Option.map_some'] at h
    have hmem := List.mem_of_find?_eq_some hf
    have hp := List.find?_some hf
    have hp1 : p.1 = s := by simpa using hp
    have hts := variantNames_toString p hmem
    injection h with h
    rw [← h, hts, hp1]

theorem stripArrayMarker_append {s e : String}
    (h : stripArrayMarker s = some e) : e ++ "[]" = s := by
  unfold stripArrayMarker at h
  split at h
  next rest heq =>
    injection h with h
    subst h
    have hdata : s.data = rest.reverse ++ ['[', ']'] := by
      have h2 := congrArg List.reverse heq
      simpa using h2
    cases s with
    | mk data =>
      simp only [String.data] at hdata
      show String.mk (rest.reverse ++ "[]".data) = ⟨data⟩
      rw [show ("[]".data) = ['[', ']'] from rfl, ← hdata]
  next => exact absurd h (by simp)

theorem vt_recognized_iff (s : String) :
    (vtFromStr s).isSome ↔ s ∈ variantNames.map Prod.fst := by
  unfold vtFromStr
  constructor
  · intro h
    cases hf : variantNames.find? (fun p => p.1 == s) with
    | none => rw [hf] at h; simp at h
    | some p =>
      have hmem := List.mem_of_find?_eq_some hf
      have hp1 : p.1 = s := by simpa using List.find?_some hf
      exact hp1 ▸ List.mem_map_of_mem Prod.fst hmem
  · intro h
    rcases List.mem_map.mp h with ⟨p, hmem, hps⟩
    have hs : (variantNames.find? (fun q => q.1 == s)).isSome := by
      rw [List.find?_isSome]
      exact ⟨p, hmem, by simp [hps]⟩
    cases hf : variantNames.find? (fun q => q.1 == s) with
    | none => rw [hf] at hs; simp at hs
    | some q => simp [hf]

/-- C5: the type-string classification (`impl FromStr for SymbolType`) is
pure and total — `from_str` never returns `Err` and agrees with the total
classification `SymbolType.fromStr`; a recognized primitive name is exactly
a member of the strum name table; when the string ends with the array marker
`[]` the marker is stripped and a recognized primitive element yields
`Array(element)`, any other element yields `OjbectArray(element)`; without
the marker a recognized primitive name yields `Variant`, any other name
yields `Object`. -/
theorem c5_type_string_classification (s : String) :
    SymbolType.fromStrR s = .ok (SymbolType.fromStr s)
    ∧ ((vtFromStr s).isSome ↔ s ∈ variantNames.map Prod.fst)
    ∧ (∀ e, stripArrayMarker s = some e →
          e ++ "[]" = s
          ∧ (∀ v, vtFromStr e = some v → SymbolType.fromStr s = .Array v)
          ∧ (vtFromStr e = none → SymbolType.fromStr s = .OjbectArray e))
    ∧ (stripArrayMarker s = none →
          (∀ v, vtFromStr s = some v → SymbolType.fromStr s = .Variant v)
          ∧ (vtFromStr s = none → SymbolType.fromStr s = .Object s)) := by
  refine ⟨?_, vt_recognized_iff s, ?_, ?_⟩
  · unfold SymbolType.fromStrR SymbolType.fromStr
    cases hstrip : stripArrayMarker s with
    | some e => cases hv : vtFromStr e <;> simp [hv]
    | none => cases hv : vtFromStr s <;> simp [hv]
  · intro e he
    refine ⟨stripArrayMarker_append he, ?_, ?_⟩
    · intro v hv; simp [SymbolType.fromStr, he, hv]
    · intro hv; simp [SymbolType.fromStr, he, hv]
  · intro hs
    refine ⟨?_, ?_⟩
    · intro v hv; simp [SymbolType.fromStr, hs, hv]
    · intro hv; simp [SymbolType.fromStr, hs, hv]

theorem c5_type_string_classification_witness :
    SymbolType.fromStr "int[]" = .Array .Int
    ∧ SymbolType.fromStr "Foo" = .Object "Foo" := by
  constructor
  · exact ((c5_type_string_classification "int[]").2.2.1 "int" rfl).2.1 .Int rfl
  · exact ((c5_type_string_classification "Foo").2.2.2 rfl).2 rfl

/-- C10: round-trip of the type-string form — for every string `s`, parsing
`s` into a `SymbolType` and converting it back yields exactly `s`
(`to_string ∘ from_str = id`), so the string form used as the catalog lookup
key is preserved by classification. -/
theorem c10_type_string_roundtrip (s : String) :
    (SymbolType.fromStr s).toString = s := by
  cases hstrip : stripArrayMarker s with
  | some e =>
    cases hv : vtFromStr e with
    | some v =>
      have h1 : SymbolType.fromStr s = .Array v := by
        simp [SymbolType.fromStr, hstrip, hv]
      rw [h1]
      show vtToString v ++ "[]" = s
      rw [vt_fromStr_toString hv]
      exact stripArrayMarker_append hstrip
    | none =>
      have h1 : SymbolType.fromStr s = .OjbectArray e := by
        simp [SymbolType.fromStr, hstrip, hv]
      rw [h1]
      show e ++ "[]" = s
      exact stripArrayMarker_append hstrip
  | none =>
    cases hv : vtFromStr s with
    | some v =>
      have h1 : SymbolType.fromStr s = .Variant v := by
        simp [SymbolType.fromStr, hstrip, hv]
      rw [h1]
      exact vt_fromStr_toString hv
    | none =>
      have h1 : SymbolType.fromStr s = .Object s := by
        simp [SymbolType.fromStr, hstrip, hv]
      rw [h1]
      rfl

/-- `MethodInfo` from `typedb.rs`. -/
structure MethodInfo where
  return_type : SymbolType
  deriving DecidableEq

/-- `PropertyInfo` from `typedb.rs`. -/
structure PropertyInfo where
  ttype : SymbolType
  deriving DecidableEq

/-- `Constructor` from `typedb.rs`. -/
structure Constructor where
  return_type : SymbolType
  deriving DecidableEq

/-- `Constant` from `typedb.rs`: the constant's literal source text. -/
structure Constant where
  value : String
  deriving DecidableEq

/-- `ClassInfo` from `typedb.rs`; the `HashMap`s become association lists. -/
structure ClassInfo where
  methods : List (String × MethodInfo)
  properties : List (String × PropertyInfo)
  parent : Option String
  constructor : Option Constructor
  constants : List (String × Constant)
  deriving DecidableEq

/-- `HashMap::get` on the association-list model. -/
def assocFind {α : Type} (l : List (String × α)) (k : String) : Option α :=
  (l.find? (fun p => p.1 == k)).map (·.2)

/-- `TypeDatabase` from `typedb.rs`. The operator tables are modelled from
the spec (§4.1): `get_binary_operator_type` / `get_unary_operator_type` are
called by `symbol_table.rs` but their implementation is not part of the
analysed sources; the spec describes them as per-class operator-table
lookups keyed by the left/operand type string and the literal operator
token, returning `None` if unsupported. -/
structure TypeDatabase where
  classes : List (String × ClassInfo)
  binary_ops : List ((String × String × SymbolType) × SymbolType)
  unary_ops : List ((String × String) × SymbolType)
  deriving DecidableEq

/-- `self.classes.get(name)`. -/
def TypeDatabase.findClass (db : TypeDatabase) (name : String) : Option ClassInfo :=
  assocFind db.classes name

/-- Modelled from the spec (§4.1): `TypeDatabase::get_binary_operator_type`
(not under the analysed sources) — a table lookup keyed by the left type
string, the operator token and the right operand type. -/
def TypeDatabase.get_binary_operator_type (db : TypeDatabase)
    (left_type_str : String) (op : String) (right : SymbolType) :
    Option SymbolType :=
  (db.binary_ops.find? (fun p =>
    p.1.1 == left_type_str && p.1.2.1 == op && p.1.2.2 == right)).map (·.2)

/-- Modelled from the spec (§4.1): `TypeDatabase::get_unary_operator_type`
(not under the analysed sources) — a table lookup keyed by the operand type
string and the operator token. -/
def TypeDatabase.get_unary_operator_type (db : TypeDatabase)
    (operand_type_str : String) (op : String) : Option SymbolType :=
  (db.unary_ops.find? (fun p =>
    p.1.1 == operand_type_str && p.1.2 == op)).map (·.2)

/-- `TypeDatabase::get_symbol_type`: property lookup on a class, recursing
to its parent when the class's own table misses; `None` when the chain ends
or the class is unknown. -/
def TypeDatabase.get_symbol_type (db : TypeDatabase) :
    Nat → String → String → Except RErr (Option SymbolType)
  | 0, _, _ => .error .fuelOut
  | fuel + 1, cls, symbol =>
    match db.findClass cls with
    | some ci =>
      match assocFind ci.properties symbol with
      | some prop => .ok (some prop.ttype)
      | none =>
        match ci.parent with
        | some parent_class => db.get_symbol_type fuel parent_class symbol
        | none => .ok none
    | none => .ok none

/-- `TypeDatabase::get_callable_type`: method lookup walking parent links;
when the walk falls out of the `if let` block (class unknown, or own methods
and parent both absent) the source reaches a single trailing
`if class != "@GlobalScope"` retry, duplicated here in both fall-through
branches. -/
def TypeDatabase.get_callable_type (db : TypeDatabase) :
    Nat → String → String → Except RErr (Option SymbolType)
  | 0, _, _ => .error .fuelOut
  | fuel + 1, cls, callable =>
    match db.findClass cls with
    | some ci =>
      match assocFind ci.methods callable with
      | some mi => .ok (some mi.return_type)
      | none =>
        match ci.parent with
        | some parent_class => db.get_callable_type fuel parent_class callable
        | none =>
          if cls ≠ "@GlobalScope" then
            db.get_callable_type fuel "@GlobalScope" callable
          else
            .ok none
    | none =>
      if cls ≠ "@GlobalScope" then
        db.get_callable_type fuel "@GlobalScope" callable
      else
        .ok none

/-- The claim-side inheritance walk over methods only (no global-scope
retry), used to state C4: first definition along `c`'s parent chain wins,
`none` when the chain (or an unknown class) exhausts. -/
def methodChainLookup (db : TypeDatabase) :
    Nat → String → String → Except RErr (Option SymbolType)
  | 0, _, _ => .error .fuelOut
  | fuel + 1, cls, callable =>
    match db.findClass cls with
    | some ci =>
      match assocFind ci.methods callable with
      | some mi => .ok (some mi.return_type)
      | none =>
        match ci.parent with
        | some parent_class => methodChainLookup db fuel parent_class callable
        | none => .ok none
    | none => .ok none

theorem methodChainLookup_det {db : TypeDatabase} {m : String} :
    ∀ {fa fb : Nat} {c : String} {x y : Option SymbolType},
      methodChainLookup db fa c m = .ok x →
      methodChainLookup db fb c m = .ok y → x = y := by
  intro fa
  induction fa with
  | zero => intro fb c x y hx _; simp [methodChainLookup] at hx
  | succ fa ih =>
    intro fb c x y hx hy
    cases fb with
    | zero => simp [methodChainLookup] at hy
    | succ fb =>
      unfold methodChainLookup at hx hy
      split at hx
      next ci heq =>
        simp only [heq] at hy
        split at hx
        next mi heq2 =>
          simp only [heq2] at hy
          injection hx with hx
          injection hy with hy
          rw [← hx, ← hy]
        next heq2 =>
          simp only [heq2] at hy
          split at hx
          next p heq3 =>
            simp only [heq3] at hy
            exact ih hx hy
          next heq3 =>
            simp only [heq3] at hy
            injection hx with hx
            injection hy with hy
            rw [← hx, ← hy]
      next heq =>
        simp only [heq] at hy
        injection hx with hx
        injection hy with hy
        rw [← hx, ← hy]

theorem get_callable_type_gs {db : TypeDatabase} {m : String}
    (hgs : ∀ ci, db.findClass "@GlobalScope" = some ci → ci.parent = none)
    {fg : Nat} {r : Option SymbolType}
    (h : methodChainLookup db fg "@GlobalScope" m = .ok r) :
    ∀ fuel, 1 ≤ fuel →
      TypeDatabase.get_callable_type db fuel "@GlobalScope" m = .ok r := by
  intro fuel hfuel
  cases fg with
  | zero => simp [methodChainLookup] at h
  | succ fg =>
    cases fuel with
    | zero => omega
    | succ fuel =>
      unfold methodChainLookup at h
      unfold TypeDatabase.get_callable_type
      split at h
      next ci heq =>
        have hpar := hgs ci heq
        split at h
        next mi heq2 =>
          injection h with h
          subst h
          simp [heq, heq2]
        next heq2 =>
          rw [hpar] at h
          injection h with h
          subst h
          simp [heq, heq2, hpar]
      next heq =>
        injection h with h
        subst h
        simp [heq]

/-- C4: for every class name `c` and method name `m`, `get_callable_type`
walks `c`'s inheritance chain over methods and returns the first definition
found; if the chain (including the unknown-class case) is exhausted it
retries exactly once against the `"@GlobalScope"` pseudo-class unless `c`
already is that pseudo-class, in which case it returns `None`; under the
catalog invariant that `"@GlobalScope"` has no parent, the guarded retry
terminates (the result is `.ok`, never fuel exhaustion). -/
theorem c4_callable_return_type (db : TypeDatabase) (c m : String)
    (hgs : ∀ ci, db.findClass "@GlobalScope" = some ci → ci.parent = none)
    (fc fg : Nat) (r1 r2 : Option SymbolType)
    (h1 : methodChainLookup db fc c m = .ok r1)
    (h2 : methodChainLookup db fg "@GlobalScope" m = .ok r2) :
    TypeDatabase.get_callable_type db (fc + fg) c m =
      .ok (match r1 with
           | some t => some t
           | none => if c = "@GlobalScope" then none else r2) := by
  induction fc generalizing c r1 with
  | zero => simp [methodChainLookup] at h1
  | succ fc ih =>
    have hfg1 : 1 ≤ fg := by
      cases fg with
      | zero => simp [methodChainLookup] at h2
      | succ fg => omega
    have harith : fc + 1 + fg = (fc + fg) + 1 := by omega
    rw [harith]
    unfold methodChainLookup at h1
    unfold TypeDatabase.get_callable_type
    split at h1
    next ci heq =>
      split at h1
      next mi heq2 =>
        injection h1 with h1
        subst h1
        simp [heq, heq2]
      next heq2 =>
        split at h1
        next p heq3 =>
          have hcg : c ≠ "@GlobalScope" := by
            intro hc
            subst hc
            rw [hgs ci heq] at heq3
            exact Option.noConfusion heq3
          have ihp := ih p r1 h1
          cases r1 with
          | some t => simp [heq, heq2, heq3, ihp]
          | none =>
            by_cases hpg : p = "@GlobalScope"
            · subst hpg
              have hr2 : r2 = none := methodChainLookup_det h2 h1
              simp [heq, heq2, heq3, ihp, hcg, hr2]
            · simp [heq, heq2, heq3, ihp, hcg, hpg]
        next heq3 =>
          injection h1 with h1
          subst h1
          by_cases hcg : c = "@GlobalScope"
          · simp [heq, heq2, heq3, hcg]
          · have hg := get_callable_type_gs hgs h2 (fc + fg) (by omega)
            simp [heq, heq2, heq3, hcg, hg]
    next heq =>
      injection h1 with h1
      subst h1
      by_cases hcg : c = "@GlobalScope"
      · simp [heq, hcg]
      · have hg := get_callable_type_gs hgs h2 (fc + fg) (by omega)
        simp [heq, hcg, hg]

/-- A two-class catalog used to exercise the C4 theorem: `Node` has no
method `g` and no parent, `@GlobalScope` defines `g`. -/
def dbC4 : TypeDatabase :=
  { classes :=
      [("Node",
        { methods := [("f", ⟨.Variant .Int⟩)], properties := [],
          parent := none, constructor := none, constants := [] }),
       ("@GlobalScope",
        { methods := [("g", ⟨.Variant .Float⟩)], properties := [],
          parent := none, constructor := none, constants := [] })],
    binary_ops := [], unary_ops := [] }

theorem c4_callable_return_type_witness :
    TypeDatabase.get_callable_type dbC4 3 "Node" "g" =
      .ok (some (.Variant .Float)) := by
  have hgs : ∀ ci, dbC4.findClass "@GlobalScope" = some ci →
      ci.parent = none := by
    intro ci hci
    have h0 : dbC4.findClass "@GlobalScope" =
        some ⟨[("g", ⟨.Variant .Float⟩)], [], none, none, []⟩ := rfl
    rw [h0] at hci
    injection hci with hci
    rw [← hci]
  have h := c4_callable_return_type dbC4 "Node" "g" hgs 2 1
    none (some (.Variant .Float)) rfl rfl
  simpa using h

/-- `tower_lsp::lsp_types::Position` (line/character). -/
structure Position where
  line : Nat
  character : Nat
  deriving DecidableEq

/-- `Symbol` from `symbol_table.rs`: a named declaration, its declaration
byte offset (symbols become visible to lookups strictly after it), the
rendering position for hint placement, the explicit-annotation flag and the
resolved type (absent when unresolved). -/
structure Symbol where
  name : String
  byte : Nat
  hint_position : Position
  static_typed : Bool
  ttype : Option SymbolType
  deriving DecidableEq

/-- `Scope` from `symbol_table.rs`: identity is the syntax node id, the
parent is a lookup key into the scope map (0 for the root scope), and
`vars` lists the symbols in source order. -/
structure Scope where
  id : Nat
  parent : Nat
  vars : List Symbol
  deriving DecidableEq

/-- `SymbolTable` from `symbol_table.rs` minus the borrowed `&TypeDatabase`,
which is passed to each operation explicitly. -/
structure SymbolTable where
  map : List (Nat × Scope)
  class_parent : Option SymbolType
  deriving DecidableEq

/-- `self.map.get(&scope)` on the association-list model. -/
def SymbolTable.findScope (st : SymbolTable) (scope : Nat) : Option Scope :=
  (st.map.find? (fun p => p.1 == scope)).map (·.2)

/-- `HashMap::insert` semantics for `SymbolTable::insert_new_scope`. -/
def SymbolTable.insertScope (st : SymbolTable) (sc : Scope) : SymbolTable :=
  { st with map := (sc.id, sc) :: st.map.filter (fun p => !(p.1 == sc.id)) }

/-- `self.map.get_mut(&id)` followed by a mutation of the stored scope. -/
def SymbolTable.updateScope (st : SymbolTable) (id : Nat)
    (f : Scope → Scope) : SymbolTable :=
  { st with map := st.map.map (fun p => if p.1 == id then (p.1, f p.2) else p) }

/-- The `for var in &scope.vars` loop of `SymbolTable::get_symbol_type`:
`break` at the first symbol with `var.byte >= position`, return the first
name match seen strictly before that point. -/
def scanVars : List Symbol → String → Nat → Option Symbol
  | [], _, _ => none
  | v :: rest, symbol, position =>
    if v.byte ≥ position then none
    else if v.name = symbol then some v
    else scanVars rest symbol position

/-- `SymbolTable::get_symbol_type`: lexical lookup walking parent links from
`scope`; the leading
`if scope == 0 { if let Some(parent) = &self.class_parent { return ... } }`
early return is rendered as the first `match` below. -/
def SymbolTable.get_symbol_type (db : TypeDatabase) (st : SymbolTable) :
    Nat → Nat → String → Nat → Except RErr (Option SymbolType)
  | 0, _, _, _ => .error .fuelOut
  | fuel + 1, scope, symbol, position =>
    match (if scope = 0 then st.class_parent else none) with
    | some parent => db.get_symbol_type fuel parent.toString symbol
    | none =>
      match st.findScope scope with
      | none => .ok none
      | some sc =>
        match scanVars sc.vars symbol position with
        | some v => .ok v.ttype
        | none => SymbolTable.get_symbol_type db st fuel sc.parent symbol position

/-- The scope-parent chain materialized: follow `parent` links from `scope`
until the reserved key 0, recording the scopes visited; `none` when a link
dangles or the fuel bound is shorter than the chain. -/
def chainFrom (st : SymbolTable) : Nat → Nat → Option (List Scope)
  | 0, _ => none
  | fuel + 1, scope =>
    if scope = 0 then some []
    else
      match st.findScope scope with
      | none => none
      | some sc => (chainFrom st fuel sc.parent).map (sc :: ·)

/-- Claim-side innermost-to-outermost walk: the first scope in the chain
whose scan finds a visible name match wins. -/
def firstScan : List Scope → String → Nat → Option Symbol
  | [], _, _ => none
  | sc :: rest, symbol, position =>
    match scanVars sc.vars symbol position with
    | some v => some v
    | none => firstScan rest symbol position

/-- Claim-side root fall-through of the lexical lookup: past the root scope
an `extends` base class redirects to the catalog property lookup. -/
def rootFallback (db : TypeDatabase) (st : SymbolTable) (fuel : Nat)
    (symbol : String) : Except RErr (Option SymbolType) :=
  match st.class_parent with
  | some parent => db.get_symbol_type fuel parent.toString symbol
  | none => .ok none

theorem scanVars_found {vars : List Symbol} {symbol : String}
    {position : Nat} {v : Symbol}
    (h : scanVars vars symbol position = some v) :
    v.byte < position ∧ v.name = symbol ∧ v ∈ vars := by
  induction vars with
  | nil => simp [scanVars] at h
  | cons w rest ih =>
    unfold scanVars at h
    split at h
    · exact absurd h (by simp)
    · next hge =>
      split at h
      · next hname =>
        injection h with h
        subst h
        exact ⟨by omega, hname, List.mem_cons_self _ _⟩
      · next hname =>
        rcases ih h with ⟨h1, h2, h3⟩
        exact ⟨h1, h2, List.mem_cons_of_mem _ h3⟩

theorem firstScan_found {chain : List Scope} {symbol : String}
    {position : Nat} {v : Symbol}
    (h : firstScan chain symbol position = some v) :
    v.byte < position ∧ v.name = symbol := by
  induction chain with
  | nil => simp [firstScan] at h
  | cons sc rest ih =>
    unfold firstScan at h
    split at h
    · next w hw =>
      injection h with h
      subst h
      exact ⟨(scanVars_found hw).1, (scanVars_found hw).2.1⟩
    · exact ih h

/-- C1: lexical identifier lookup. For a well-formed scope chain from
`scope` to the root (no scope stored under the reserved parent key 0),
`SymbolTable::get_symbol_type` at an identifier's start offset equals the
innermost-to-outermost, first-scope-wins walk over that chain; a symbol
wins only if its declaration offset is at or before (in fact strictly
before) the identifier's start offset; and when the walk passes the root
scope without a match, the result is the catalog property lookup on the
`extends` base class (`None` when no base class was declared). -/
theorem c1_lexical_lookup (db : TypeDatabase) (st : SymbolTable)
    (symbol : String) (position : Nat) (fuel scope : Nat)
    (chain : List Scope)
    (hchain : chainFrom st fuel scope = some chain)
    (h0 : st.findScope 0 = none) :
    (SymbolTable.get_symbol_type db st fuel scope symbol position =
       match firstScan chain symbol position with
       | some v => .ok v.ttype
       | none => rootFallback db st (fuel - chain.length - 1) symbol)
    ∧ (∀ v, firstScan chain symbol position = some v →
         v.byte ≤ position ∧ v.name = symbol) := by
  constructor
  · induction fuel generalizing scope chain with
    | zero => simp [chainFrom] at hchain
    | succ fuel ih =>
      unfold chainFrom at hchain
      by_cases hs : scope = 0
      · rw [if_pos hs] at hchain
        injection hchain with hchain
        subst hchain
        subst hs
        unfold SymbolTable.get_symbol_type
        cases hcp : st.class_parent with
        | some parent => simp [hcp, firstScan, rootFallback]
        | none => simp [hcp, h0, firstScan, rootFallback]
      · rw [if_neg hs] at hchain
        split at hchain
        next hfs => exact absurd hchain (by simp)
        next sc hfs =>
          rw [Option.map_eq_some'] at hchain
          rcases hchain with ⟨rest, hrest, hchain⟩
          subst hchain
          unfold SymbolTable.get_symbol_type
          rw [if_neg hs]
          simp only [hfs]
          cases hscan : scanVars sc.vars symbol position with
          | some v => simp [firstScan, hscan]
          | none =>
            simp only [firstScan, hscan]
            have harith : fuel + 1 - (sc :: rest).length - 1 =
                fuel - rest.length - 1 := by
              simp only [List.length_cons]
              omega
            rw [harith]
            exact ih sc.parent rest hrest
  · intro v hv
    exact ⟨Nat.le_of_lt (firstScan_found hv).1, (firstScan_found hv).2⟩

/-- The nested function scope of the shadowing example: `var b = 10`
recorded at offset 50. -/
def scC1inner : Scope :=
  { id := 7, parent := 5,
    vars := [{ name := "b", byte := 50, hint_position := ⟨1, 5⟩,
               static_typed := false, ttype := some (.Variant .Int) }] }

/-- The root scope of the shadowing example: `var b = false` recorded at
offset 0 (as after the root-scope reset). -/
def scC1root : Scope :=
  { id := 5, parent := 0,
    vars := [{ name := "b", byte := 0, hint_position := ⟨0, 5⟩,
               static_typed := false, ttype := some (.Variant .Bool) }] }

/-- A two-scope table realizing the spec's shadowing example. -/
def stC1 : SymbolTable :=
  { map := [(7, scC1inner), (5, scC1root)], class_parent := none }

/-- An empty catalog for witnesses that never reach the catalog. -/
def dbEmpty : TypeDatabase :=
  { classes := [], binary_ops := [], unary_ops := [] }

theorem c1_lexical_lookup_witness :
    SymbolTable.get_symbol_type dbEmpty stC1 5 7 "b" 30 =
      .ok (some (.Variant .Bool))
    ∧ SymbolTable.get_symbol_type dbEmpty stC1 5 7 "b" 60 =
      .ok (some (.Variant .Int)) := by
  constructor
  · exact ((c1_lexical_lookup dbEmpty stC1 "b" 30 5 7
      [scC1inner, scC1root] rfl rfl).1).trans (by rfl)
  · exact ((c1_lexical_lookup dbEmpty stC1 "b" 60 5 7
      [scC1inner, scC1root] rfl rfl).1).trans (by rfl)

/-- A shallow model of a `tree_sitter::Node`: kind string, the source text
the node spans (`node_content(&node, file)` is `content` in the model), the
start/end byte offsets, the tree-sitter node id, the positional child list
(`child(i)`, including anonymous tokens such as parentheses and operator
tokens), and the field table (`child_by_field_name`). -/
inductive GNode where
  | node (kind : String) (content : String) (startByte : Nat)
      (endByte : Nat) (endPosition : Position) (id : Nat)
      (children : List GNode) (fields : List (String × GNode)) : GNode

/-- `node.kind()`. -/
def GNode.kind : GNode → String
  | .node k _ _ _ _ _ _ _ => k

/-- `node_content(&node, file)`. -/
def GNode.content : GNode → String
  | .node _ c _ _ _ _ _ _ => c

/-- `node.start_byte()`. -/
def GNode.startByte : GNode → Nat
  | .node _ _ s _ _ _ _ _ => s

/-- `node.end_byte()`. -/
def GNode.endByte : GNode → Nat
  | .node _ _ _ e _ _ _ _ => e

/-- `point_to_position(node.end_position())`: the model stores the line and
column of the node end directly. -/
def GNode.endPosition : GNode → Position
  | .node _ _ _ _ ep _ _ _ => ep

/-- `node.id()`. -/
def GNode.id : GNode → Nat
  | .node _ _ _ _ _ i _ _ => i

/-- The positional child list. -/
def GNode.children : GNode → List GNode
  | .node _ _ _ _ _ _ cs _ => cs

/-- The field table. -/
def GNode.fields : GNode → List (String × GNode)
  | .node _ _ _ _ _ _ _ fs => fs

/-- `node.child(i)`. -/
def GNode.child (n : GNode) (i : Nat) : Option GNode :=
  n.children.get? i

/-- `node.child_by_field_name(f)`. -/
def GNode.childByField (n : GNode) (f : String) : Option GNode :=
  (n.fields.find? (fun p => p.1 == f)).map (·.2)

/-- `node.children_by_field_name(f)`. -/
def GNode.childrenByField (n : GNode) (f : String) : List GNode :=
  (n.fields.filter (fun p => p.1 == f)).map (·.2)

/-- The ambient environment of the resolver: the borrowed catalog, plus the
external tree-sitter parser `utils::parse_file` modelled as a parameter
mapping a source string to the root node of its parse (or `none` when the
parser yields nothing). -/
structure Env where
  typedb : TypeDatabase
  parse : String → Option GNode

/-- Result type of the embedded inference functions. -/
abbrev Res := Except RErr (Option SymbolType)

/-- `SymbolTable::infer_identifier_type`: lexical lookup of the
identifier's text at its start offset. -/
def infer_identifier_type (env : Env) (st : SymbolTable) (fuel : Nat)
    (scope_id : Nat) (identifier : GNode) : Res :=
  SymbolTable.get_symbol_type env.typedb st fuel scope_id
    identifier.content identifier.startByte

/-- `SymbolTable::infer_parenthesized_expression_type`; `node.child(1)?`
yields `None` when absent. `recur` is the inference entry point at the
enclosing fuel. -/
def infer_parenthesized_expression_type (recur : Nat → GNode → Res)
    (scope_id : Nat) (node : GNode) : Res :=
  match node.child 1 with
  | none => .ok none
  | some inner_expression => recur scope_id inner_expression

/-- `SymbolTable::infer_unary_operator_type`: infer the operand
(`child(1)`), then look the operator token (`child(0)` kind) up in the
catalog's unary operator table. -/
def infer_unary_operator_type (env : Env) (recur : Nat → GNode → Res)
    (scope_id : Nat) (node : GNode) : Res :=
  match node.child 1 with
  | none => .ok none
  | some inner_expression =>
    match recur scope_id inner_expression with
    | .error e => .error e
    | .ok none => .ok none
    | .ok (some inner_type) =>
      match node.child 0 with
      | none => .ok none
      | some opn =>
        .ok (env.typedb.get_unary_operator_type inner_type.toString opn.kind)

/-- `SymbolTable::infer_binary_operator_type`: infer both operands (either
unresolved operand makes the result unresolved via `?`), then look up
(left type string, operator token, right type) in the catalog's binary
operator table. -/
def infer_binary_operator_type (env : Env)
    (recur : Nat → GNode → Res) (scope_id : Nat) (bin_op : GNode) : Res :=
  match bin_op.childByField "left" with
  | none => .error .panicked
  | some left_node =>
    match bin_op.childByField "right" with
    | none => .error .panicked
    | some right_node =>
      match recur scope_id left_node with
      | .error e => .error e
      | .ok none => .ok none
      | .ok (some left_type) =>
        match recur scope_id right_node with
        | .error e => .error e
        | .ok none => .ok none
        | .ok (some right_type) =>
          match bin_op.child 1 with
          | none => .ok none
          | some opn =>
            .ok (env.typedb.get_binary_operator_type
              left_type.toString opn.kind right_type)

/-- `SymbolTable::infer_call_type`: a call whose name is a catalog class
with a constructor returns the constructor's return type first; otherwise,
with an `extends` base class, the callable's return type is resolved via
`get_callable_type`, and when that equals the `Object("Variant")` sentinel
the inferred type of `arguments.child(1)` — the first argument, `child(0)`
being the opening parenthesis token — is substituted. -/
def infer_call_type (env : Env) (st : SymbolTable)
    (recur : Nat → GNode → Res) (fuel : Nat) (scope_id : Nat)
    (node : GNode) : Res :=
  match node.child 0 with
  | none => .error .panicked
  | some name_node =>
    match (env.typedb.findClass name_node.content).bind ClassInfo.constructor with
    | some ctor => .ok (some ctor.return_type)
    | none =>
      match st.class_parent with
      | none => .ok none
      | some parent =>
        match TypeDatabase.get_callable_type env.typedb fuel
            parent.toString name_node.content with
        | .error e => .error e
        | .ok infered_type =>
          if infered_type = some (SymbolType.Object "Variant") then
            match node.childByField "arguments" with
            | some arguments =>
              match arguments.child 1 with
              | some first_child => recur scope_id first_child
              | none => .ok infered_type
            | none => .ok infered_type
          else
            .ok infered_type

/-- `SymbolTable::infer_attribute_type`. The left-hand side is classified:
a parenthesized expression is inferred and its type names the class; a
locally resolvable name contributes its type's class; otherwise the name is
read literally as a class name. Then the right-hand side (`child(2)`)
dispatches: an `identifier` reads a class constant (lazily parsing its
stored literal and re-entering inference at scope 0) when the left side is
a class, or an instance property from the class's own table; an
`attribute_call` reads a method from the class's own table; any other kind
is `unreachable!()`. -/
def infer_attribute_type (env : Env) (st : SymbolTable)
    (recur : Nat → GNode → Res) (fuel : Nat) (scope_id : Nat)
    (node : GNode) : Res :=
  match node.child 0 with
  | none => .error .panicked
  | some lhs_node =>
    let classify : Except RErr (Option (Bool × ClassInfo)) :=
      if lhs_node.kind = "parenthesized_expression" then
        match infer_parenthesized_expression_type recur scope_id lhs_node with
        | .error e => .error e
        | .ok none => .ok none
        | .ok (some paren_expr_type) =>
          match env.typedb.findClass paren_expr_type.toString with
          | none => .ok none
          | some ci => .ok (some (false, ci))
      else
        match SymbolTable.get_symbol_type env.typedb st fuel scope_id
            lhs_node.content lhs_node.startByte with
        | .error e => .error e
        | .ok (some ttype) =>
          match env.typedb.findClass ttype.toString with
          | none => .ok none
          | some ci => .ok (some (false, ci))
        | .ok none =>
          match env.typedb.findClass lhs_node.content with
          | none => .ok none
          | some ci => .ok (some (true, ci))
    match classify with
    | .error e => .error e
    | .ok none => .ok none
    | .ok (some (is_class, type_info)) =>
      match node.child 2 with
      | none => .error .panicked
      | some attribute_node =>
        match attribute_node.kind with
        | "identifier" =>
          if is_class then
            match assocFind type_info.constants attribute_node.content with
            | none => .ok none
            | some constant =>
              match env.parse constant.value with
              | none => .ok none
              | some parsed_root =>
                match parsed_root.child 0 with
                | none => .ok none
                | some expression_statement =>
                  match expression_statement.child 0 with
                  | none => .ok none
                  | some expression => recur 0 expression
          else
            match assocFind type_info.properties attribute_node.content with
            | none => .ok none
            | some field_info => .ok (some field_info.ttype)
        | "attribute_call" =>
          match attribute_node.child 0 with
          | none => .error .panicked
          | some method_name_node =>
            match assocFind type_info.methods method_name_node.content with
            | none => .ok none
            | some method_info => .ok (some method_info.return_type)
        | _ => .error .panicked

/-- `SymbolTable::infer_type`: dispatch on the node kind; every recursive
entry (direct or through a helper's `recur`) happens at one less fuel. -/
def infer_type (env : Env) (st : SymbolTable) : Nat → Nat → GNode → Res
  | 0 => fun _ _ => .error .fuelOut
  | fuel + 1 => fun scope_id node =>
    match node.kind with
    | "integer" => .ok (some (.Variant .Int))
    | "float" => .ok (some (.Variant .Float))
    | "false" => .ok (some (.Variant .Bool))
    | "true" => .ok (some (.Variant .Bool))
    | "string" => .ok (some (.Variant .String))
    | "binary_operator" =>
      infer_binary_operator_type env (infer_type env st fuel) scope_id node
    | "identifier" => infer_identifier_type env st fuel scope_id node
    | "attribute" =>
      infer_attribute_type env st (infer_type env st fuel) fuel scope_id node
    | "call" =>
      infer_call_type env st (infer_type env st fuel) fuel scope_id node
    | "parenthesized_expression" =>
      infer_parenthesized_expression_type (infer_type env st fuel)
        scope_id node
    | "unary_operator" =>
      infer_unary_operator_type env (infer_type env st fuel) scope_id node
    | _ => .ok none

theorem infer_type_attribute (env : Env) (st : SymbolTable)
    (fuel scope_id : Nat) (node : GNode)
    (hkind : node.kind = "attribute") :
    infer_type env st (fuel + 1) scope_id node =
      infer_attribute_type env st (infer_type env st fuel) fuel
        scope_id node := by
  cases node with
  | node k c sb eb ep i cs fs =>
    simp only [GNode.kind] at hkind
    subst hkind
    rfl

theorem infer_type_call (env : Env) (st : SymbolTable)
    (fuel scope_id : Nat) (node : GNode)
    (hkind : node.kind = "call") :
    infer_type env st (fuel + 1) scope_id node =
      infer_call_type env st (infer_type env st fuel) fuel
        scope_id node := by
  cases node with
  | node k c sb eb ep i cs fs =>
    simp only [GNode.kind] at hkind
    subst hkind
    rfl

/-- Class `A`: no own properties, parent `B`. -/
def ciA : ClassInfo :=
  { methods := [], properties := [], parent := some "B",
    constructor := none, constants := [] }

/-- Class `B`: own property `p : int`, no parent. -/
def ciB : ClassInfo :=
  { methods := [], properties := [("p", ⟨.Variant .Int⟩)], parent := none,
    constructor := none, constants := [] }

/-- Catalog with the inheritance edge `A → B`. -/
def dbC2 : TypeDatabase :=
  { classes := [("A", ciA), ("B", ciB)], binary_ops := [], unary_ops := [] }

/-- Environment over `dbC2` whose parser is never consulted. -/
def envC2 : Env := { typedb := dbC2, parse := fun _ => none }

/-- One scope declaring `a : A` and `b : B` at offset 0. -/
def scC2 : Scope :=
  { id := 1, parent := 0,
    vars := [{ name := "a", byte := 0, hint_position := ⟨0, 5⟩,
               static_typed := false, ttype := some (.Object "A") },
             { name := "b", byte := 0, hint_position := ⟨1, 5⟩,
               static_typed := false, ttype := some (.Object "B") }] }

/-- Symbol table for the C2 instances. -/
def stC2 : SymbolTable := { map := [(1, scC2)], class_parent := none }

/-- The identifier `a` at byte 10. -/
def idA : GNode := .node "identifier" "a" 10 11 ⟨0, 11⟩ 101 [] []

/-- The `.` token of the attribute. -/
def dotTok : GNode := .node "." "." 11 12 ⟨0, 12⟩ 102 [] []

/-- The identifier `p` (attribute name). -/
def idP : GNode := .node "identifier" "p" 12 13 ⟨0, 13⟩ 103 [] []

/-- The attribute access `a.p`. -/
def nodeC2 : GNode := .node "attribute" "a.p" 10 13 ⟨0, 13⟩ 100 [idA, dotTok, idP] []

/-- The identifier `b` at byte 20. -/
def idB : GNode := .node "identifier" "b" 20 21 ⟨0, 21⟩ 111 [] []

/-- The identifier `p` of `b.p`. -/
def idP2 : GNode := .node "identifier" "p" 22 23 ⟨0, 23⟩ 113 [] []

/-- The attribute access `b.p`. -/
def nodeC2b : GNode :=
  .node "attribute" "b.p" 20 23 ⟨0, 23⟩ 110 [idB, dotTok, idP2] []

/-- C2 counterexample: `a` resolves to an instance of catalog class `A`,
the property `p` is defined only on `A`'s parent `B`, the inheritance-aware
`property_type` (`TypeDatabase::get_symbol_type`) finds `int`, yet the
inferred type of `a.p` is `None` — the attribute lookup consults only the
class's own property table, so it does not agree with `property_type` on
the class. -/
theorem c2_attribute_inheritance_counterexample :
    SymbolTable.get_symbol_type dbC2 stC2 5 1 "a" 10 =
      .ok (some (.Object "A"))
    ∧ TypeDatabase.get_symbol_type dbC2 5 "A" "p" =
      .ok (some (.Variant .Int))
    ∧ infer_type envC2 stC2 6 1 nodeC2 = .ok none :=
  ⟨rfl, rfl, rfl⟩

/-- C2 (amended): for an attribute access `a.b` whose left-hand side is a
plain (non-parenthesized) node resolving to an instance whose type names a
catalog class, and whose right-hand side is a plain name, the inferred type
is the class's own property-table entry for `b` (`None` when absent) —
ancestor classes are not consulted; consequently the result agrees with the
inheritance-aware `property_type` exactly in the case that the property is
defined on the class itself. -/
theorem c2_attribute_property_own_table (env : Env) (st : SymbolTable)
    (fuel scope_id : Nat) (node lhs attr : GNode) (ttype : SymbolType)
    (ci : ClassInfo)
    (hkind : node.kind = "attribute")
    (hc0 : node.child 0 = some lhs)
    (hnp : lhs.kind ≠ "parenthesized_expression")
    (hres : SymbolTable.get_symbol_type env.typedb st fuel scope_id
      lhs.content lhs.startByte = .ok (some ttype))
    (hci : env.typedb.findClass ttype.toString = some ci)
    (hc2 : node.child 2 = some attr)
    (hid : attr.kind = "identifier") :
    infer_type env st (fuel + 1) scope_id node =
      .ok ((assocFind ci.properties attr.content).map PropertyInfo.ttype)
    ∧ (∀ pi, assocFind ci.properties attr.content = some pi →
        ∀ fuel2, TypeDatabase.get_symbol_type env.typedb (fuel2 + 1)
          ttype.toString attr.content = .ok (some pi.ttype)) := by
  constructor
  · rw [infer_type_attribute env st fuel scope_id node hkind]
    unfold infer_attribute_type
    simp only [hc0, if_neg hnp, hres, hci, hc2, hid]
    cases hfind : assocFind ci.properties attr.content with
    | none => simp [hfind]
    | some pi => simp [hfind]
  · intro pi hpi fuel2
    unfold TypeDatabase.get_symbol_type
    simp only [hci, hpi]

theorem c2_attribute_property_own_table_witness :
    infer_type envC2 stC2 6 1 nodeC2b = .ok (some (.Variant .Int)) := by
  have h := (c2_attribute_property_own_table envC2 stC2 5 1 nodeC2b idB idP2
    (.Object "B") ciB rfl rfl (by decide) rfl rfl rfl rfl).1
  exact h.trans (by rfl)

/-- C7: class-constant resolution is lazy — for `ClassName.CONST` where the
left-hand side is a plain (non-parenthesized) node that is not a visible
local symbol (lexical lookup yields `None`) and whose text names a catalog
class, and the right-hand side is a plain name, the inferred type is
obtained by fetching the constant's stored literal source text, parsing it
as a standalone expression (root → expression statement → expression) and
re-entering inference on that expression at scope 0; absence of the
constant (or a failed parse) yields `None`. -/
theorem c7_lazy_class_constant (env : Env) (st : SymbolTable)
    (fuel scope_id : Nat) (node lhs attr : GNode) (ci : ClassInfo)
    (hkind : node.kind = "attribute")
    (hc0 : node.child 0 = some lhs)
    (hnp : lhs.kind ≠ "parenthesized_expression")
    (hres : SymbolTable.get_symbol_type env.typedb st fuel scope_id
      lhs.content lhs.startByte = .ok none)
    (hci : env.typedb.findClass lhs.content = some ci)
    (hc2 : node.child 2 = some attr)
    (hid : attr.kind = "identifier") :
    infer_type env st (fuel + 1) scope_id node =
      match assocFind ci.constants attr.content with
      | none => .ok none
      | some constant =>
        match env.parse constant.value with
        | none => .ok none
        | some parsed_root =>
          match parsed_root.child 0 with
          | none => .ok none
          | some expression_statement =>
            match expression_statement.child 0 with
            | none => .ok none
            | some expression => infer_type env st fuel 0 expression := by
  rw [infer_type_attribute env st fuel scope_id node hkind]
  unfold infer_attribute_type
  simp only [hc0, if_neg hnp, hres, hci, hc2, hid, if_true]

/-- Class `Vec` with the constant `ZERO` stored as the literal text 42. -/
def ciV : ClassInfo :=
  { methods := [], properties := [], parent := none, constructor := none,
    constants := [("ZERO", ⟨"42"⟩)] }

/-- Catalog containing only `Vec`. -/
def dbC7 : TypeDatabase :=
  { classes := [("Vec", ciV)], binary_ops := [], unary_ops := [] }

/-- The integer literal node of the parsed constant text. -/
def intLit : GNode := .node "integer" "42" 0 2 ⟨0, 2⟩ 201 [] []

/-- The expression statement wrapping the parsed literal. -/
def exprStmt : GNode := .node "expression_statement" "42" 0 2 ⟨0, 2⟩ 202 [intLit] []

/-- The parse-tree root for the constant text 42. -/
def rootC7 : GNode := .node "source" "42" 0 2 ⟨0, 2⟩ 203 [exprStmt] []

/-- Environment whose parser parses exactly the string 42. -/
def envC7 : Env :=
  { typedb := dbC7, parse := fun s => if s = "42" then some rootC7 else none }

/-- The identifier `Vec` of `Vec.ZERO`. -/
def idVec : GNode := .node "identifier" "Vec" 10 13 ⟨0, 13⟩ 211 [] []

/-- The identifier `ZERO` of `Vec.ZERO`. -/
def idZero : GNode := .node "identifier" "ZERO" 14 18 ⟨0, 18⟩ 212 [] []

/-- The attribute access `Vec.ZERO`. -/
def nodeC7 : GNode :=
  .node "attribute" "Vec.ZERO" 10 18 ⟨0, 18⟩ 210 [idVec, dotTok, idZero] []

/-- A symbol table with no scopes and no base class. -/
def stEmpty : SymbolTable := { map := [], class_parent := none }

theorem c7_lazy_class_constant_witness :
    infer_type envC7 stEmpty 6 1 nodeC7 = .ok (some (.Variant .Int)) := by
  have h := c7_lazy_class_constant envC7 stEmpty 5 1 nodeC7 idVec idZero ciV
    rfl rfl (by decide) rfl rfl rfl rfl
  exact h.trans (by rfl)

/-- C6: call-expression inference. First, when the called name matches a
catalog class with a constructor, the constructor's return type is returned
outright. Second, when the constructor path does not apply, the file
declared a base class, the callable's resolved return type equals the
generic `Object("Variant")` sentinel and the call has at least one argument
(`arguments.child(1)`, `child(0)` being the parenthesis token), the
inferred type of the call is the inferred type of that first argument
instead of the sentinel. -/
theorem c6_call_generic_passthrough (env : Env) (st : SymbolTable)
    (fuel scope_id : Nat) (node name_node : GNode)
    (hkind : node.kind = "call")
    (hc0 : node.child 0 = some name_node) :
    (∀ ci ctor, env.typedb.findClass name_node.content = some ci →
       ci.constructor = some ctor →
       infer_type env st (fuel + 1) scope_id node =
         .ok (some ctor.return_type))
    ∧ (∀ parent arguments first_child,
       (env.typedb.findClass name_node.content).bind ClassInfo.constructor
           = none →
       st.class_parent = some parent →
       TypeDatabase.get_callable_type env.typedb fuel parent.toString
           name_node.content = .ok (some (SymbolType.Object "Variant")) →
       node.childByField "arguments" = some arguments →
       arguments.child 1 = some first_child →
       infer_type env st (fuel + 1) scope_id node =
         infer_type env st fuel scope_id first_child) := by
  constructor
  · intro ci ctor hci hctor
    rw [infer_type_call env st fuel scope_id node hkind]
    unfold infer_call_type
    simp [hc0, hci, hctor, Option.bind]
  · intro parent arguments first_child hnoc hcp hret hargs hfirst
    rw [infer_type_call env st fuel scope_id node hkind]
    unfold infer_call_type
    simp [hc0, hnoc, hcp, hret, hargs, hfirst]

/-- Class `Vector3` with a constructor returning the `Vector3` variant. -/
def ciVec3 : ClassInfo :=
  { methods := [], properties := [], parent := none,
    constructor := some ⟨.Variant .Vector3⟩, constants := [] }

/-- Class `Node` with the polymorphic builtin `maxf` returning the
`Object("Variant")` sentinel. -/
def ciNode : ClassInfo :=
  { methods := [("maxf", ⟨.Object "Variant"⟩)], properties := [],
    parent := none, constructor := none, constants := [] }

/-- Catalog for the C6 witness. -/
def dbC6 : TypeDatabase :=
  { classes := [("Vector3", ciVec3), ("Node", ciNode)],
    binary_ops := [], unary_ops := [] }

/-- Environment over `dbC6`; the parser is never consulted. -/
def envC6 : Env := { typedb := dbC6, parse := fun _ => none }

/-- Table of a file with `extends Node` and no local scopes. -/
def stC6 : SymbolTable := { map := [], class_parent := some (.Object "Node") }

/-- The identifier `Vector3` of the constructor call. -/
def idVector3 : GNode := .node "identifier" "Vector3" 0 7 ⟨0, 7⟩ 301 [] []

/-- The constructor call `Vector3()`. -/
def nodeC6ctor : GNode := .node "call" "Vector3()" 0 9 ⟨0, 9⟩ 300 [idVector3] []

/-- The identifier `maxf` of the builtin call. -/
def idMaxf : GNode := .node "identifier" "maxf" 20 24 ⟨0, 24⟩ 311 [] []

/-- The opening parenthesis token of the argument list. -/
def parenTok : GNode := .node "(" "(" 24 25 ⟨0, 25⟩ 312 [] []

/-- The float literal argument. -/
def floatLit : GNode := .node "float" "1.5" 25 28 ⟨0, 28⟩ 313 [] []

/-- The `arguments` node: parenthesis token, then the first argument. -/
def argsC6 : GNode := .node "arguments" "(1.5)" 24 29 ⟨0, 29⟩ 314 [parenTok, floatLit] []

/-- The call `maxf(1.5)`. -/
def nodeC6max : GNode :=
  .node "call" "maxf(1.5)" 20 29 ⟨0, 29⟩ 310 [idMaxf, argsC6] [("arguments", argsC6)]

theorem c6_call_generic_passthrough_witness :
    infer_type envC6 stC6 6 1 nodeC6ctor = .ok (some (.Variant .Vector3))
    ∧ infer_type envC6 stC6 6 1 nodeC6max = .ok (some (.Variant .Float)) := by
  constructor
  · exact (c6_call_generic_passthrough envC6 stC6 5 1 nodeC6ctor idVector3
      rfl rfl).1 ciVec3 ⟨.Variant .Vector3⟩ rfl rfl
  · exact ((c6_call_generic_passthrough envC6 stC6 5 1 nodeC6max idMaxf
      rfl rfl).2 (.Object "Node") argsC6 floatLit rfl rfl rfl rfl rfl).trans
      (by rfl)

/-- `self.map.get_mut(&scope_id).unwrap().vars.push(symbol)`: the `unwrap`
panics when the scope is absent. -/
def pushVar (st : SymbolTable) (scope_id : Nat) (symbol : Symbol) :
    Except RErr SymbolTable :=
  match st.findScope scope_id with
  | none => .error .panicked
  | some _ =>
    .ok (st.updateScope scope_id
      (fun sc => { sc with vars := sc.vars ++ [symbol] }))

/-- `SymbolTable::insert_new_scope`: a fresh scope keyed by the body node's
id with the given parent. -/
def insert_new_scope (st : SymbolTable) (body : GNode)
    (parent_scope : Nat) : SymbolTable :=
  st.insertScope { id := body.id, parent := parent_scope, vars := [] }

/-- The parameter-seeding loop of the `function_definition` arm: iterating
`parameters.child(i)` for `i in 0..child_count` is iterating the child
list; each `typed_parameter` contributes a `static_typed` symbol visible
from the start of the function body. -/
def seedParams (new_scope_id function_begins : Nat) :
    SymbolTable → List GNode → Except RErr SymbolTable
  | st, [] => .ok st
  | st, parameter :: rest =>
    if parameter.kind = "typed_parameter" then
      match parameter.child 0 with
      | none => .error .panicked
      | some name_node =>
        match pushVar st new_scope_id
            { name := name_node.content, byte := function_begins,
              hint_position := name_node.endPosition, static_typed := true,
              ttype := (parameter.childByField "type").bind
                (fun tn => SymbolType.fromStrOk tn.content) } with
        | .error e => .error e
        | .ok st1 => seedParams new_scope_id function_begins st1 rest
    else
      seedParams new_scope_id function_begins st rest

/-- The `variable_statement` / `const_statement` arm of `build_body`: an
explicit annotation parses to the type and sets `static_typed`; otherwise
the initializer is inferred (possibly `None`); the symbol is recorded in
the current scope at the statement's end byte. -/
def buildVarStatement (env : Env) (fuel : Nat) (st : SymbolTable)
    (current_scope_id : Nat) (child : GNode) : Except RErr SymbolTable :=
  match child.childByField "name" with
  | none => .error .panicked
  | some name_node =>
    match (match child.childByField "type" with
           | some type_node =>
             .ok (true, SymbolType.fromStrOk type_node.content)
           | none =>
             match child.childByField "value" with
             | some value_node =>
               match infer_type env st fuel current_scope_id value_node with
               | .error e => .error e
               | .ok ttype => .ok (false, ttype)
             | none => .ok (false, none) :
           Except RErr (Bool × Option SymbolType)) with
    | .error e => .error e
    | .ok (static_typed, ttype) =>
      pushVar st current_scope_id
        { name := name_node.content, byte := child.endByte,
          hint_position := name_node.endPosition,
          static_typed := static_typed, ttype := ttype }

/-- The body of the `alternative` loop of the `if_statement` arm, also used
for a single `elif_clause` / `else_clause` / `for_statement` child: fetch
the `body` field (`unwrap`), open a scope under the current one, recurse. -/
def buildClauseBody (recurBody : SymbolTable → GNode → Except RErr SymbolTable)
    (st : SymbolTable) (current_scope_id : Nat) (child : GNode) :
    Except RErr SymbolTable :=
  match child.childByField "body" with
  | none => .error .panicked
  | some body_node =>
    recurBody (insert_new_scope st body_node current_scope_id) body_node

/-- The `alternative` loop of the `if_statement` arm. -/
def buildBodies (recurBody : SymbolTable → GNode → Except RErr SymbolTable)
    (current_scope_id : Nat) :
    SymbolTable → List GNode → Except RErr SymbolTable
  | st, [] => .ok st
  | st, clause :: rest =>
    match buildClauseBody recurBody st current_scope_id clause with
    | .error e => .error e
    | .ok st1 => buildBodies recurBody current_scope_id st1 rest

/-- The pattern-section loop of the `match_statement` arm; a section
without a `body` field is skipped (`let ... else continue`); each pattern
body's scope hangs off the current scope. -/
def buildPatternSections
    (recurBody : SymbolTable → GNode → Except RErr SymbolTable)
    (current_scope_id : Nat) :
    SymbolTable → List GNode → Except RErr SymbolTable
  | st, [] => .ok st
  | st, pattern_section :: rest =>
    match pattern_section.childByField "body" with
    | none => buildPatternSections recurBody current_scope_id st rest
    | some pattern_body =>
      match recurBody (insert_new_scope st pattern_body current_scope_id)
          pattern_body with
      | .error e => .error e
      | .ok st1 => buildPatternSections recurBody current_scope_id st1 rest

/-- One iteration of the `build_body` loop (`match child.kind()`);
`recurBody` is `build_body` at the enclosing fuel. -/
def build_child (env : Env)
    (recurBody : SymbolTable → GNode → Except RErr SymbolTable)
    (fuel : Nat) (st : SymbolTable) (current_scope_id : Nat)
    (child : GNode) : Except RErr SymbolTable :=
  match child.kind with
  | "variable_statement" =>
    buildVarStatement env fuel st current_scope_id child
  | "const_statement" =>
    buildVarStatement env fuel st current_scope_id child
  | "function_definition" =>
    match child.childByField "body" with
    | none => .error .panicked
    | some body_node =>
      match (match child.childByField "parameters" with
             | some parameters =>
               seedParams body_node.id body_node.startByte
                 (insert_new_scope st body_node current_scope_id)
                 parameters.children
             | none =>
               .ok (insert_new_scope st body_node current_scope_id)) with
      | .error e => .error e
      | .ok st1 => recurBody st1 body_node
  | "if_statement" =>
    match child.childByField "body" with
    | none => .error .panicked
    | some body_node =>
      match recurBody (insert_new_scope st body_node current_scope_id)
          body_node with
      | .error e => .error e
      | .ok st1 =>
        buildBodies recurBody current_scope_id st1
          (child.childrenByField "alternative")
  | "elif_clause" => buildClauseBody recurBody st current_scope_id child
  | "else_clause" => buildClauseBody recurBody st current_scope_id child
  | "for_statement" => buildClauseBody recurBody st current_scope_id child
  | "extends_statement" =>
    .ok { st with class_parent :=
      (child.child 1).bind (fun tn => SymbolType.fromStrOk tn.content) }
  | "match_statement" =>
    match child.childByField "body" with
    | none => .ok st
    | some match_body =>
      buildPatternSections recurBody current_scope_id st match_body.children
  | _ => .ok st

/-- The `for child in body.children` loop of `build_body`. -/
def build_children (env : Env)
    (recurBody : SymbolTable → GNode → Except RErr SymbolTable)
    (fuel : Nat) (current_scope_id : Nat) :
    SymbolTable → List GNode → Except RErr SymbolTable
  | st, [] => .ok st
  | st, child :: rest =>
    match build_child env recurBody fuel st current_scope_id child with
    | .error e => .error e
    | .ok st1 => build_children env recurBody fuel current_scope_id st1 rest

/-- `SymbolTable::build_body`: iterate the children of `body` with
`body.id()` as the current scope. -/
def build_body (env : Env) : Nat → SymbolTable → GNode →
    Except RErr SymbolTable
  | 0 => fun _ _ => .error .fuelOut
  | fuel + 1 => fun st body =>
    build_children env (build_body env fuel) fuel body.id st body.children

/-- `SymbolTable::build_table`: insert the root scope with parent key 0,
walk the tree, then reset every root-scope symbol's declaration byte offset
to 0 (the trailing `for symbol in ... { symbol.byte = 0 }`). -/
def build_table (env : Env) (fuel : Nat) (st : SymbolTable) (root : GNode) :
    Except RErr SymbolTable :=
  match build_body env fuel (insert_new_scope st root 0) root with
  | .error e => .error e
  | .ok st2 =>
    match st2.findScope root.id with
    | none => .error .panicked
    | some _ =>
      .ok (st2.updateScope root.id
        (fun sc => { sc with vars := sc.vars.map (fun v => { v with byte := 0 }) }))

theorem assoc_update_find (l : List (Nat × Scope)) (id0 : Nat)
    (f : Scope → Scope) :
    (((l.map (fun p => if p.1 == id0 then (p.1, f p.2) else p)).find?
        (fun p => p.1 == id0)).map (·.2)) =
      (((l.find? (fun p => p.1 == id0)).map (·.2)).map f) := by
  induction l with
  | nil => rfl
  | cons p rest ih =>
    by_cases hp : p.1 = id0
    · simp [List.find?, hp]
    · simp only [List.map_cons]
      rw [List.find?_cons_of_neg, List.find?_cons_of_neg]
      · exact ih
      · simp [hp]
      · simp [hp]

theorem findScope_updateScope (st : SymbolTable) (id0 : Nat)
    (f : Scope → Scope) :
    (st.updateScope id0 f).findScope id0 = (st.findScope id0).map f := by
  unfold SymbolTable.updateScope SymbolTable.findScope
  exact assoc_update_find st.map id0 f

theorem scanVars_all_zero (vars : List Symbol) (name : String)
    (position : Nat) (hz : ∀ v ∈ vars, v.byte = 0) (hpos : 1 ≤ position) :
    scanVars vars name position = vars.find? (fun v => v.name == name) := by
  induction vars with
  | nil => rfl
  | cons w rest ih =>
    have hw : w.byte = 0 := hz w (List.mem_cons_self _ _)
    have hnge : ¬ w.byte ≥ position := by omega
    unfold scanVars
    rw [if_neg hnge]
    by_cases hn : w.name = name
    · rw [if_pos hn, List.find?_cons_of_pos]
      simp [hn]
    · rw [if_neg hn, List.find?_cons_of_neg]
      · exact ih (fun v hv => hz v (List.mem_cons_of_mem _ hv))
      · simp [hn]

/-- C8 (amended): after `build_table` completes, every symbol recorded in
the root scope has its declaration byte offset reset to 0; consequently,
for every lookup position at byte offset 1 or later, scanning the root
scope degenerates to a plain name search — module-level declarations are
visible regardless of their textual order relative to the lookup. (At byte
offset 0, the start of file, nothing is visible, because the scan admits a
symbol only when its declaration offset is strictly before the lookup
position.) -/
theorem c8_root_scope_reset (env : Env) (fuel : Nat) (st : SymbolTable)
    (root : GNode) (st2 : SymbolTable)
    (hbuild : build_table env fuel st root = .ok st2) :
    ∀ sc, st2.findScope root.id = some sc →
      (∀ v ∈ sc.vars, v.byte = 0)
      ∧ (∀ name position, 1 ≤ position →
           scanVars sc.vars name position =
             sc.vars.find? (fun v => v.name == name)) := by
  intro sc hsc
  unfold build_table at hbuild
  split at hbuild
  · exact absurd hbuild (by simp)
  · next st3 hb =>
    split at hbuild
    · exact absurd hbuild (by simp)
    · next sc3 hfs =>
      injection hbuild with hbuild
      subst hbuild
      rw [findScope_updateScope] at hsc
      rw [hfs] at hsc
      injection hsc with hsc
      subst hsc
      constructor
      · intro v hv
        simp only at hv
        rcases List.mem_map.mp hv with ⟨w, _, hw⟩
        rw [← hw]
      · intro name position hpos
        apply scanVars_all_zero
        · intro v hv
          simp only at hv
          rcases List.mem_map.mp hv with ⟨w, _, hw⟩
          rw [← hw]
        · exact hpos

/-- The identifier `x` of `var x = 123`. -/
def idX : GNode := .node "identifier" "x" 4 5 ⟨0, 5⟩ 501 [] []

/-- The integer literal `123`. -/
def intLit123 : GNode := .node "integer" "123" 8 11 ⟨0, 11⟩ 502 [] []

/-- The statement `var x = 123` ending at byte 11. -/
def varStmtC8 : GNode :=
  .node "variable_statement" "var x = 123" 0 11 ⟨0, 11⟩ 503 []
    [("name", idX), ("value", intLit123)]

/-- A module whose only statement is `var x = 123`; the root node id is
50. -/
def rootC8 : GNode :=
  .node "source" "var x = 123" 0 11 ⟨0, 11⟩ 50 [varStmtC8] []

/-- Environment over the empty catalog; the parser is never consulted. -/
def envC8 : Env := { typedb := dbEmpty, parse := fun _ => none }

/-- The module-level symbol for `x` after the root-scope reset. -/
def xSym : Symbol :=
  { name := "x", byte := 0, hint_position := ⟨0, 5⟩,
    static_typed := false, ttype := some (.Variant .Int) }

/-- The symbol table produced by `build_table` on the C8 module. -/
def stC8res : SymbolTable :=
  { map := [(50, { id := 50, parent := 0, vars := [xSym] })],
    class_parent := none }

/-- C8 counterexample: building the module `var x = 123` records `x` in the
root scope with its byte offset reset to 0, yet a lookup at position 0 (the
start of file, a position in the file) does not see it — visibility
requires the declaration offset to be strictly before the lookup position,
so the claim's "visible for every lookup position" fails at position 0
while holding from position 1 on. -/
theorem c8_root_scope_reset_counterexample :
    build_table envC8 4 stEmpty rootC8 = .ok stC8res
    ∧ stC8res.findScope 50 = some { id := 50, parent := 0, vars := [xSym] }
    ∧ xSym.byte = 0
    ∧ SymbolTable.get_symbol_type dbEmpty stC8res 3 50 "x" 0 = .ok none
    ∧ SymbolTable.get_symbol_type dbEmpty stC8res 3 50 "x" 1 =
        .ok (some (.Variant .Int)) :=
  ⟨rfl, rfl, rfl, rfl, rfl⟩

theorem c8_root_scope_reset_witness :
    (∀ v ∈ [xSym], v.byte = 0)
    ∧ scanVars [xSym] "x" 5 = [xSym].find? (fun v => v.name == "x") := by
  have h := c8_root_scope_reset envC8 4 stEmpty rootC8 stC8res rfl
    { id := 50, parent := 0, vars := [xSym] } rfl
  exact ⟨h.1, h.2 "x" 5 (by omega)⟩

/-- The expression kinds with an inference rule in `infer_type`. -/
def handledKinds : List String :=
  ["integer", "float", "false", "true", "string", "binary_operator",
   "identifier", "attribute", "call", "parenthesized_expression",
   "unary_operator"]

theorem infer_type_unhandled (env : Env) (st : SymbolTable)
    (fuel scope_id : Nat) (node : GNode)
    (hnot : node.kind ∉ handledKinds) :
    infer_type env st (fuel + 1) scope_id node = .ok none := by
  cases node with
  | node k c sb eb ep i cs fs =>
    simp only [GNode.kind, handledKinds, List.mem_cons, List.mem_singleton,
      not_or] at hnot
    unfold infer_type
    simp only [GNode.kind]
    split <;> simp_all

/-- C9: type inference never raises. Dispatch on an expression kind with no
defined inference rule yields `None` (`.ok none` — in particular no panic
and no fuel exhaustion happens on such a node), and an unresolved
initializer does not abort table construction: a `variable_statement` whose
value has no inference rule still records its symbol, with an absent type,
in the current scope, so the walk continues over the rest of the file. -/
theorem c9_graceful_degradation :
    (∀ (env : Env) (st : SymbolTable) (fuel scope_id : Nat) (node : GNode),
       node.kind ∉ handledKinds →
       infer_type env st (fuel + 1) scope_id node = .ok none)
    ∧ (∀ (env : Env)
         (recurBody : SymbolTable → GNode → Except RErr SymbolTable)
         (st : SymbolTable) (fuel scope_id : Nat)
         (child name_node value_node : GNode) (sc : Scope),
       child.kind = "variable_statement" →
       child.childByField "name" = some name_node →
       child.childByField "type" = none →
       child.childByField "value" = some value_node →
       value_node.kind ∉ handledKinds →
       st.findScope scope_id = some sc →
       build_child env recurBody (fuel + 1) st scope_id child =
         .ok (st.updateScope scope_id (fun sc0 =>
           { sc0 with vars := sc0.vars ++
               [{ name := name_node.content, byte := child.endByte,
                  hint_position := name_node.endPosition,
                  static_typed := false, ttype := none }] }))) := by
  constructor
  · exact infer_type_unhandled
  · intro env recurBody st fuel scope_id child name_node value_node sc
      hkind hname htype hvalue hnot hsc
    cases child with
    | node k c sb eb ep i cs fs =>
      simp only [GNode.kind] at hkind
      subst hkind
      have hstep : build_child env recurBody (fuel + 1) st scope_id
          (GNode.node "variable_statement" c sb eb ep i cs fs) =
          buildVarStatement env (fuel + 1) st scope_id
          (GNode.node "variable_statement" c sb eb ep i cs fs) := rfl
      rw [hstep]
      unfold buildVarStatement
      simp only [hname, htype, hvalue,
        infer_type_unhandled env st fuel scope_id value_node hnot]
      unfold pushVar
      simp only [hsc]

/-- A lambda literal — an expression kind `infer_type` has no rule for. -/
def lambdaNode : GNode := .node "lambda" "func(e): e" 8 18 ⟨0, 18⟩ 601 [] []

/-- The identifier `f` of `var f = func(e): e`. -/
def idF : GNode := .node "identifier" "f" 4 5 ⟨0, 5⟩ 603 [] []

/-- The statement `var f = func(e): e`. -/
def varStmtC9 : GNode :=
  .node "variable_statement" "var f = func(e): e" 0 18 ⟨0, 18⟩ 602 []
    [("name", idF), ("value", lambdaNode)]

/-- An empty scope with id 60. -/
def scC9 : Scope := { id := 60, parent := 0, vars := [] }

/-- A table holding only the empty scope 60. -/
def stC9 : SymbolTable := { map := [(60, scC9)], class_parent := none }

/-- The symbol recorded for `f`, with no resolved type. -/
def symF : Symbol :=
  { name := "f", byte := 18, hint_position := ⟨0, 5⟩,
    static_typed := false, ttype := none }

/-- The table expected after processing `var f = func(e): e`. -/
def stC9res : SymbolTable :=
  { map := [(60, { id := 60, parent := 0, vars := [symF] })],
    class_parent := none }

theorem c9_graceful_degradation_witness :
    infer_type envC8 stC9 4 60 lambdaNode = .ok none
    ∧ build_child envC8 (build_body envC8 3) 4 stC9 60 varStmtC9 =
        .ok stC9res := by
  constructor
  · exact c9_graceful_degradation.1 envC8 stC9 3 60 lambdaNode (by decide)
  · exact (c9_graceful_degradation.2 envC8 (build_body envC8 3) stC9 3 60
      varStmtC9 idF lambdaNode scC9 rfl rfl rfl rfl (by decide) rfl).trans
      (by rfl)

/-- `lsp_types::Range`; the `end` field is `endPos` here because `end` is
reserved in Lean. -/
structure RangeL where
  start : Position
  endPos : Position
  deriving DecidableEq

/-- `lsp_types::TextDocumentContentChangeEvent`: an optional range and the
replacement text. -/
structure ChangeEvent where
  range : Option RangeL
  text : String
  deriving DecidableEq

/-- `tree_sitter::InputEdit`. -/
structure InputEdit where
  start_byte : Nat
  old_end_byte : Nat
  new_end_byte : Nat
  start_position : Position
  old_end_position : Position
  new_end_position : Position
  deriving DecidableEq

/-- A model of a `tree_sitter::Tree` by the text it is a parse of: the
tree's internal structure is irrelevant to the store invariant (C3), so a
tree value is represented by the source string it was parsed from. -/
structure TreeM where
  src : String
  deriving DecidableEq

/-- `tree.edit(&InputEdit { .. })`: adjusts only the internal position
bookkeeping consumed by the following reparse; the content the tree stands
for is unchanged. -/
def TreeM.edit (t : TreeM) (_e : InputEdit) : TreeM := t

/-- `SourceFile` from `filedb.rs`: the rope (modelled as a string of
chars; LSP character offsets are counted one per char, which is exact for
ASCII sources) and the syntax tree. -/
structure SourceFile where
  content : String
  tree : TreeM
  deriving DecidableEq

/-- `FileDatabase` from `filedb.rs`; the `Arc<RwLock<HashMap<..>>>` is the
map guarded by the exclusive write lock held for a whole change batch. -/
structure FileDatabase where
  files : List (String × SourceFile)
  deriving DecidableEq

/-- `self.files.read/write().get(file_path)`. -/
def FileDatabase.findFile (db : FileDatabase) (path : String) :
    Option SourceFile :=
  (db.files.find? (fun p => p.1 == path)).map (·.2)

/-- `HashMap::insert` semantics for `file_opened`. -/
def FileDatabase.insertFile (db : FileDatabase) (path : String)
    (f : SourceFile) : FileDatabase :=
  { files := (path, f) :: db.files.filter (fun p => !(p.1 == path)) }

/-- `get_mut(file_path)` followed by in-place mutation. -/
def FileDatabase.updateFile (db : FileDatabase) (path : String)
    (f : SourceFile → SourceFile) : FileDatabase :=
  { files := db.files.map (fun p => if p.1 == path then (p.1, f p.2) else p) }

/-- `Rope::line_to_byte_idx(line, LineType::LF_CR)` on the char-list model
(line breaks counted at `\n`). -/
def lineToByteIdx : List Char → Nat → Nat
  | _, 0 => 0
  | [], _ + 1 => 0
  | ch :: rest, line + 1 =>
    if ch = '\n' then 1 + lineToByteIdx rest line
    else 1 + lineToByteIdx rest (line + 1)

/-- `rope.remove(start..stop)` (in-bounds behavior). -/
def ropeRemove (s : List Char) (start stop : Nat) : List Char :=
  s.take start ++ s.drop stop

/-- `rope.insert(start, text)` (in-bounds behavior). -/
def ropeInsert (s : List Char) (start : Nat) (text : List Char) :
    List Char :=
  s.take start ++ text ++ s.drop start

/-- One iteration of the `for change in content_changes` loop of
`FileDatabase::file_changed`: compute absolute byte offsets from the
change's line/column range against the current rope, delete that range,
insert the replacement unless empty, build the `InputEdit` exactly as the
source does (counting the replacement's line breaks and its trailing
characters after the last line break) and apply it to the tree. A change
without a range is skipped (`continue`). -/
def applyChange (f : SourceFile) (change : ChangeEvent) : SourceFile :=
  match change.range with
  | none => f
  | some range =>
    let start := lineToByteIdx f.content.data range.start.line
      + range.start.character
    let stop := lineToByteIdx f.content.data range.endPos.line
      + range.endPos.character
    let removed := ropeRemove f.content.data start stop
    let content1 : List Char :=
      if change.text.data.isEmpty then removed
      else ropeInsert removed start change.text.data
    let new_line_breaks := change.text.data.countP (fun c => c == '\n')
    let trailing_characters :=
      (change.text.data.reverse.takeWhile (fun c => !(c == '\n'))).length
    let edit : InputEdit :=
      { start_byte := start, old_end_byte := stop,
        new_end_byte := start + change.text.data.length,
        start_position := range.start, old_end_position := range.endPos,
        new_end_position :=
          ⟨range.start.line + new_line_breaks, trailing_characters⟩ }
    { content := ⟨content1⟩, tree := f.tree.edit edit }

/-- `FileDatabase::file_opened`: parse the text, and when the parse
succeeds store the rope and tree (replacing any previous entry for the
path); a failed parse stores nothing. `parseF` models the external
tree-sitter parser (`utils::parse_file`). -/
def file_opened (parseF : String → Option TreeM) (db : FileDatabase)
    (file_path : String) (file_content : String) : FileDatabase :=
  match parseF file_content with
  | none => db
  | some tree =>
    db.insertFile file_path { content := file_content, tree := tree }

/-- The trailing reparse of `file_changed`
(`if let Some(new_tree) = reparse_file(&content, &tree) { tree = new_tree }`).
`reparse_file` is not under the analysed sources; modelled from the spec
(§4.2): the reparse parses the final text, using the previous (edited) tree
only as a reuse hint, so it is the ambient parser applied to the final
content; when it yields nothing the previous tree is kept. -/
def reparseStep (parseF : String → Option TreeM) (f1 : SourceFile) :
    SourceFile :=
  match parseF f1.content with
  | some new_tree => { f1 with tree := new_tree }
  | none => f1

/-- `FileDatabase::file_changed`: a missing path drops the batch silently;
otherwise every change patches rope and tree together under the one write
lock, and the tree is finally reparsed against the final text. -/
def file_changed (parseF : String → Option TreeM) (db : FileDatabase)
    (file_path : String) (content_changes : List ChangeEvent) :
    FileDatabase :=
  match db.findFile file_path with
  | none => db
  | some f =>
    db.updateFile file_path (fun _ =>
      reparseStep parseF (content_changes.foldl applyChange f))

/-- The store invariant of C3: every stored tree is a parse of (represents
exactly) the stored text buffer. -/
def StoreInv (db : FileDatabase) : Prop :=
  ∀ path f, db.findFile path = some f → f.tree.src = f.content

theorem find?_filter_ne {α : Type} (l : List (String × α)) (p q : String)
    (hqp : q ≠ p) :
    (l.filter (fun x => !(x.1 == p))).find? (fun x => x.1 == q) =
      l.find? (fun x => x.1 == q) := by
  induction l with
  | nil => rfl
  | cons x rest ih =>
    by_cases hxp : x.1 = p
    · simp [List.filter_cons, List.find?_cons, hxp, Ne.symm hqp, ih]
    · simp [List.filter_cons, List.find?_cons, hxp, ih]

theorem find?_map_update {α : Type} (l : List (String × α)) (p : String)
    (g : α → α) :
    (((l.map (fun x => if x.1 == p then (x.1, g x.2) else x)).find?
        (fun x => x.1 == p)).map (·.2)) =
      (((l.find? (fun x => x.1 == p)).map (·.2)).map g) := by
  induction l with
  | nil => rfl
  | cons x rest ih =>
    by_cases hxp : x.1 = p
    · have hhead : (if (x.1 == p) = true then (x.1, g x.2) else x) =
          (x.1, g x.2) := by simp [hxp]
      have hb : (x.1 == p) = true := by simp [hxp]
      simp only [List.map_cons]
      rw [hhead]
      simp only [List.find?, hb, Option.map_some']
    · have hhead : (if (x.1 == p) = true then (x.1, g x.2) else x) = x := by
        simp [hxp]
      have hb : (x.1 == p) = false := by simp [hxp]
      simp only [List.map_cons]
      rw [hhead]
      simp only [List.find?, hb]
      exact ih

theorem find?_map_update_ne {α : Type} (l : List (String × α))
    (p q : String) (hqp : q ≠ p) (g : α → α) :
    ((l.map (fun x => if x.1 == p then (x.1, g x.2) else x)).find?
        (fun x => x.1 == q)) = l.find? (fun x => x.1 == q) := by
  induction l with
  | nil => rfl
  | cons x rest ih =>
    by_cases hxp : x.1 = p
    · have hhead : (if (x.1 == p) = true then (x.1, g x.2) else x) =
          (x.1, g x.2) := by simp [hxp]
      have hq : (x.1 == q) = false := by
        refine beq_eq_false_iff_ne.mpr ?_
        intro h
        exact hqp (h.symm.trans hxp)
      simp only [List.map_cons]
      rw [hhead]
      simp only [List.find?, hq]
      exact ih
    · have hhead : (if (x.1 == p) = true then (x.1, g x.2) else x) = x := by
        simp [hxp]
      by_cases hxq : x.1 = q
      · have hq : (x.1 == q) = true := by simp [hxq]
        simp only [List.map_cons]
        rw [hhead]
        simp only [List.find?, hq]
      · have hq : (x.1 == q) = false := by simp [hxq]
        simp only [List.map_cons]
        rw [hhead]
        simp only [List.find?, hq]
        exact ih

theorem findFile_updateFile_self (db : FileDatabase) (p : String)
    (g : SourceFile → SourceFile) :
    (db.updateFile p g).findFile p = (db.findFile p).map g := by
  unfold FileDatabase.updateFile FileDatabase.findFile
  exact find?_map_update db.files p g

theorem findFile_updateFile_ne (db : FileDatabase) (p q : String)
    (hqp : q ≠ p) (g : SourceFile → SourceFile) :
    (db.updateFile p g).findFile q = db.findFile q := by
  unfold FileDatabase.updateFile FileDatabase.findFile
  rw [find?_map_update_ne db.files p q hqp g]

theorem findFile_insertFile_self (db : FileDatabase) (p : String)
    (f : SourceFile) : (db.insertFile p f).findFile p = some f := by
  unfold FileDatabase.insertFile FileDatabase.findFile
  simp [List.find?]

theorem findFile_insertFile_ne (db : FileDatabase) (p q : String)
    (hqp : q ≠ p) (f : SourceFile) :
    (db.insertFile p f).findFile q = db.findFile q := by
  unfold FileDatabase.insertFile FileDatabase.findFile
  rw [List.find?_cons_of_neg]
  · rw [find?_filter_ne db.files p q hqp]
  · simp
    exact fun h => hqp h.symm

theorem reparseStep_src (parseF : String → Option TreeM)
    (hp : ∀ s t, parseF s = some t → t.src = s)
    (ht : ∀ s, (parseF s).isSome = true) (f1 : SourceFile) :
    (reparseStep parseF f1).tree.src = (reparseStep parseF f1).content := by
  unfold reparseStep
  cases hp1 : parseF f1.content with
  | none =>
    have := ht f1.content
    rw [hp1] at this
    simp at this
  | some new_tree =>
    simp only
    exact hp f1.content new_tree hp1

/-- C3: for every open file and every edit batch applied by the change
handler, after the batch completes the stored syntax tree and the stored
text buffer represent the same content (the tree is a parse of the current
buffer), and a partial patch failure is never left applied to only one of
the two: with a parser whose successful result represents exactly the
parsed text and which (per the spec, §4.2) always yields a parse of the
final text, `file_opened` establishes and `file_changed` preserves the
store invariant at every path, for every batch. -/
theorem c3_tree_text_consistency (parseF : String → Option TreeM)
    (hp : ∀ s t, parseF s = some t → t.src = s)
    (ht : ∀ s, (parseF s).isSome = true)
    (db : FileDatabase) (hinv : StoreInv db) :
    (∀ path text, StoreInv (file_opened parseF db path text))
    ∧ (∀ path changes, StoreInv (file_changed parseF db path changes)) := by
  constructor
  · intro path text q f hf
    unfold file_opened at hf
    split at hf
    · exact hinv q f hf
    · next tree hpt =>
      by_cases hq : q = path
      · subst hq
        rw [findFile_insertFile_self] at hf
        injection hf with hf
        subst hf
        exact hp text tree hpt
      · rw [findFile_insertFile_ne db path q hq] at hf
        exact hinv q f hf
  · intro path changes q f hf
    unfold file_changed at hf
    split at hf
    · exact hinv q f hf
    · next f0 hfind =>
      by_cases hq : q = path
      · subst hq
        rw [findFile_updateFile_self, hfind] at hf
        injection hf with hf
        subst hf
        exact reparseStep_src parseF hp ht _
      · rw [findFile_updateFile_ne db path q hq] at hf
        exact hinv q f hf

/-- The total parser of the C3 witness: every string parses, and the parse
represents exactly that string. -/
def parseC3 : String → Option TreeM := fun s => some ⟨s⟩

/-- A single edit replacing the character at line 0, columns 8–9 by `2`. -/
def changeC3 : ChangeEvent := { range := some ⟨⟨0, 8⟩, ⟨0, 9⟩⟩, text := "2" }

theorem c3_tree_text_consistency_witness :
    StoreInv (file_changed parseC3
      (file_opened parseC3 ⟨[]⟩ "a.gd" "var x = 1") "a.gd" [changeC3]) := by
  have hp : ∀ s t, parseC3 s = some t → t.src = s := by
    intro s t h
    injection h with h
    rw [← h]
  have ht : ∀ s, (parseC3 s).isSome = true := fun s => rfl
  have h0 : StoreInv ⟨[]⟩ := by
    intro path f hf
    simp [FileDatabase.findFile, List.find?] at hf
  have h1 := (c3_tree_text_consistency parseC3 hp ht ⟨[]⟩ h0).1 "a.gd"
    "var x = 1"
  exact (c3_tree_text_consistency parseC3 hp ht _ h1).2 "a.gd" [changeC3]
